import Mathlib

/-!
Verification of the MetaTrader 5 MCP server core (src/src/mt5-server.ts and
src/server.js) against its natural-language specification.

The development shallowly embeds:
* the JavaScript run-time values handled by the server (`JsValue`),
* the per-tool argument guards (`isAccountInfoArg`, ..., both as pure
  predicates and as evaluation-order-faithful computations in an
  exception monad),
* the tool dispatcher of `src/src/mt5-server.ts` (`dispatch`, `handle`),
  with the backend HTTP layer abstracted as an oracle
  `HttpRequest → HttpOutcome`,
* the stdin length-prefix framing loop of `src/server.js`
  (`processBuffer`, `feedChunks`).
-/

namespace MT5

/-- JavaScript run-time values, as far as the server manipulates them:
`undefined`, `null`, booleans, numbers (modelled as exact rationals; the
floating-point representation is irrelevant to the properties proved here),
strings, arrays and plain objects (ordered field lists, as produced by
`JSON.parse`). -/
inductive JsValue where
  | undefined
  | null
  | bool (b : Bool)
  | num (q : Rat)
  | str (s : String)
  | arr (elems : List JsValue)
  | obj (fields : List (String × JsValue))

/-- First-match field lookup in an object's field list (a `JSON.parse`d
object has no duplicate keys, so first-match agrees with JS property
lookup). -/
def lookupField : List (String × JsValue) → String → Option JsValue
  | [], _ => none
  | (k, v) :: rest, key => if k = key then some v else lookupField rest key

/-- JS property access `v.key`, total version: access on a non-object
yields `undefined`.  The source only accesses properties after a
`typeof v === 'object' && v !== null` check (see `getFieldE` for the
evaluation-order-faithful partial version). -/
def getField (v : JsValue) (key : String) : JsValue :=
  match v with
  | .obj fields => (lookupField fields key).getD .undefined
  | _ => .undefined

/-- JS `typeof` operator. -/
def jsTypeOf : JsValue → String
  | .undefined => "undefined"
  | .null => "object"
  | .bool _ => "boolean"
  | .num _ => "number"
  | .str _ => "string"
  | .arr _ => "object"
  | .obj _ => "object"

/-- Evaluation of `v === null`. -/
def isNullJs : JsValue → Bool
  | .null => true
  | _ => false

/-- Evaluation of `v === undefined`. -/
def isUndefJs : JsValue → Bool
  | .undefined => true
  | _ => false

/-- JS truthiness (`NaN` is not representable in the rational model). -/
def jsTruthy : JsValue → Bool
  | .undefined => false
  | .null => false
  | .bool b => b
  | .num q => !(q == 0)
  | .str s => !(s == "")
  | .arr _ => true
  | .obj _ => true

/-- JS number-to-string coercion.  Integral doubles print as plain
decimal integers, which is the only case the server ever serializes in
the claims under study; the non-integral branch is a placeholder for
the shortest-round-trip double formatting, which is never evaluated in
this development. -/
def jsNumStr (q : Rat) : String :=
  if q.den = 1 then toString q.num else toString q

mutual
/-- JS string coercion as used by template literals. -/
def jsToString : JsValue → String
  | .undefined => "undefined"
  | .null => "null"
  | .bool b => if b then "true" else "false"
  | .num q => jsNumStr q
  | .str s => s
  | .arr elems => String.intercalate "," (jsToStringList elems)
  | .obj _ => "[object Object]"

/-- Elementwise string coercion of an array (`Array.prototype.join`
renders `null` and `undefined` elements as empty strings). -/
def jsToStringList : List JsValue → List String
  | [] => []
  | v :: vs =>
    (match v with
     | .null => ""
     | .undefined => ""
     | w => jsToString w) :: jsToStringList vs
end

/-- JSON string escaping as performed by `JSON.stringify`. -/
def escapeChar (c : Char) : String :=
  if c = '"' then "\\\""
  else if c = '\\' then "\\\\"
  else if c = '\x08' then "\\b"
  else if c = '\x09' then "\\t"
  else if c = '\x0a' then "\\n"
  else if c = '\x0c' then "\\f"
  else if c = '\x0d' then "\\r"
  else if c.toNat < 32 then
    "\\u00" ++ String.singleton (Nat.digitChar (c.toNat / 16)) ++
      String.singleton (Nat.digitChar (c.toNat % 16))
  else String.singleton c

/-- A JSON-quoted string literal. -/
def jsonQuote (s : String) : String :=
  "\"" ++ String.join (s.data.map escapeChar) ++ "\""

/-- Indentation of `n` spaces. -/
def mkSpaces (n : Nat) : String :=
  String.mk (List.replicate n ' ')

mutual
/-- Computation of `JSON.stringify(v, null, 2)` at current indentation `gap`:
`none` models the JS result `undefined` (for an `undefined` input);
objects drop `undefined`-valued fields, arrays render `undefined`
elements as `null`, and non-empty composites are pretty-printed with
two-space indentation exactly as V8 does. -/
def stringify2 (gap : Nat) : JsValue → Option String
  | .undefined => none
  | .null => some "null"
  | .bool b => some (if b then "true" else "false")
  | .num q => some (jsNumStr q)
  | .str s => some (jsonQuote s)
  | .arr elems =>
    match elems with
    | [] => some "[]"
    | _ =>
      let items := stringifyArrItems (gap + 2) elems
      some ("[\n" ++ String.intercalate ",\n" (items.map (fun s => mkSpaces (gap + 2) ++ s)) ++
        "\n" ++ mkSpaces gap ++ "]")
  | .obj fields =>
    let items := stringifyObjItems (gap + 2) fields
    if items.isEmpty then some "\x7b\x7d"
    else
      some ("\x7b\n" ++ String.intercalate ",\n" items ++ "\n" ++ mkSpaces gap ++ "\x7d")

/-- Rendered elements of an array (an `undefined` element renders as
`"null"`). -/
def stringifyArrItems (gap : Nat) : List JsValue → List String
  | [] => []
  | v :: vs => ((stringify2 gap v).getD "null") :: stringifyArrItems gap vs

/-- Rendered `"key": value` lines of an object; fields whose value does
not stringify (i.e. `undefined`) are omitted. -/
def stringifyObjItems (gap : Nat) : List (String × JsValue) → List String
  | [] => []
  | (k, v) :: kvs =>
    match stringify2 gap v with
    | none => stringifyObjItems gap kvs
    | some s => (mkSpaces gap ++ jsonQuote k ++ ": " ++ s) :: stringifyObjItems gap kvs
end

/-- The text put into a content block: `JSON.stringify(data, null, 2)`.
(The `undefined` fallback never arises on data produced by the backend
oracle in this development.) -/
def stringifyText (v : JsValue) : String :=
  (stringify2 0 v).getD "undefined"

/-! ## Argument guards (mt5-server.ts lines 79-126, server.js lines 160-180)

Each TypeScript guard is a chain of `&&`-conjuncts.  `isXArg` is the
resulting boolean predicate; `isXArgE` below re-expresses the same chain
in an exception monad following the exact JS evaluation order, so that
totality (no thrown `TypeError` from a property access on
`null`/`undefined`) is a theorem rather than an artifact of the
embedding. -/

/-- Guard `isAccountInfoArg` (mt5-server.ts line 79). -/
def isAccountInfoArg (args : JsValue) : Bool :=
  jsTypeOf args == "object" && !isNullJs args &&
    (isUndefJs (getField args "account") || jsTypeOf (getField args "account") == "number")

/-- Guard `isSymbolPriceArg` (mt5-server.ts line 83). -/
def isSymbolPriceArg (args : JsValue) : Bool :=
  jsTypeOf args == "object" && !isNullJs args &&
    jsTypeOf (getField args "symbol") == "string"

/-- Guard `isOrderArg` (mt5-server.ts line 87). -/
def isOrderArg (args : JsValue) : Bool :=
  jsTypeOf args == "object" && !isNullJs args &&
    jsTypeOf (getField args "symbol") == "string" &&
    jsTypeOf (getField args "type") == "string" &&
    jsTypeOf (getField args "volume") == "number"

/-- Guard `isModifyOrderArg` (mt5-server.ts line 93): only `ticket` is
checked; the declared optional `sl`/`tp` are not inspected. -/
def isModifyOrderArg (args : JsValue) : Bool :=
  jsTypeOf args == "object" && !isNullJs args &&
    jsTypeOf (getField args "ticket") == "number"

/-- Guard `isCloseOrderArg` (mt5-server.ts line 97). -/
def isCloseOrderArg (args : JsValue) : Bool :=
  jsTypeOf args == "object" && !isNullJs args &&
    jsTypeOf (getField args "ticket") == "number"

/-- Guard `isRunOptimizationArg` (mt5-server.ts line 102): checks the seven
required fields; `optimization_mode` and `other_options` are not
inspected. -/
def isRunOptimizationArg (args : JsValue) : Bool :=
  jsTypeOf args == "object" && !isNullJs args &&
    jsTypeOf (getField args "symbol") == "string" &&
    jsTypeOf (getField args "ea") == "string" &&
    jsTypeOf (getField args "period") == "string" &&
    jsTypeOf (getField args "date_from") == "string" &&
    jsTypeOf (getField args "date_to") == "string" &&
    jsTypeOf (getField args "deposit") == "number" &&
    jsTypeOf (getField args "params") == "object"

/-- Guard `isOptimizationIdArg` (mt5-server.ts line 122). -/
def isOptimizationIdArg (args : JsValue) : Bool :=
  jsTypeOf args == "object" && !isNullJs args &&
    jsTypeOf (getField args "optimization_id") == "string"

/-- Guard `isSaveOptimizationResultsArg` (mt5-server.ts line 125): only
`optimization_id` is checked. -/
def isSaveOptimizationResultsArg (args : JsValue) : Bool :=
  jsTypeOf args == "object" && !isNullJs args &&
    jsTypeOf (getField args "optimization_id") == "string"

/-! ## Error model -/

/-- The MCP error codes used by the server (`ErrorCode` from the MCP
SDK; JSON-RPC numeric values -32601, -32602, -32603). -/
inductive ErrCode where
  | methodNotFound
  | invalidParams
  | internalError
deriving DecidableEq

/-- A thrown JS exception, as distinguished by the `catch` block of the
tool-call handler: an `McpError`, an Axios error (optionally carrying a
response with HTTP status and parsed body, plus the transport-level
message such as "Request failed with status code 500"), or any other
JS error. -/
inductive Thrown where
  | mcp (code : ErrCode) (msg : String)
  | axios (response : Option (Nat × JsValue)) (msg : String)
  | js (msg : String)

/-- JS property access `v.key` with JS partiality: access on
`null`/`undefined` throws a `TypeError`. -/
def getFieldE (v : JsValue) (key : String) : Except Thrown JsValue :=
  match v with
  | .undefined => .error (.js ("Cannot read properties of undefined (reading " ++ key ++ ")"))
  | .null => .error (.js ("Cannot read properties of null (reading " ++ key ++ ")"))
  | .obj fields => .ok ((lookupField fields key).getD .undefined)
  | _ => .ok .undefined

/-! Evaluation-order-faithful guards.  Each mirrors the `&&` chain of
its TypeScript source: a false conjunct short-circuits before any later
property access is evaluated. -/

/-- Guard `isAccountInfoArg`, JS evaluation order. -/
def isAccountInfoArgE (args : JsValue) : Except Thrown Bool :=
  if !(jsTypeOf args == "object") then .ok false
  else if isNullJs args then .ok false
  else do
    let a ← getFieldE args "account"
    .ok (isUndefJs a || jsTypeOf a == "number")

/-- Guard `isSymbolPriceArg`, JS evaluation order. -/
def isSymbolPriceArgE (args : JsValue) : Except Thrown Bool :=
  if !(jsTypeOf args == "object") then .ok false
  else if isNullJs args then .ok false
  else do
    let s ← getFieldE args "symbol"
    .ok (jsTypeOf s == "string")

/-- Guard `isOrderArg`, JS evaluation order. -/
def isOrderArgE (args : JsValue) : Except Thrown Bool :=
  if !(jsTypeOf args == "object") then .ok false
  else if isNullJs args then .ok false
  else do
    let s ← getFieldE args "symbol"
    if !(jsTypeOf s == "string") then .ok false
    else do
      let t ← getFieldE args "type"
      if !(jsTypeOf t == "string") then .ok false
      else do
        let v ← getFieldE args "volume"
        .ok (jsTypeOf v == "number")

/-- Guard `isModifyOrderArg`, JS evaluation order. -/
def isModifyOrderArgE (args : JsValue) : Except Thrown Bool :=
  if !(jsTypeOf args == "object") then .ok false
  else if isNullJs args then .ok false
  else do
    let t ← getFieldE args "ticket"
    .ok (jsTypeOf t == "number")

/-- Guard `isCloseOrderArg`, JS evaluation order. -/
def isCloseOrderArgE (args : JsValue) : Except Thrown Bool :=
  if !(jsTypeOf args == "object") then .ok false
  else if isNullJs args then .ok false
  else do
    let t ← getFieldE args "ticket"
    .ok (jsTypeOf t == "number")

/-- Guard `isRunOptimizationArg`, JS evaluation order. -/
def isRunOptimizationArgE (args : JsValue) : Except Thrown Bool :=
  if !(jsTypeOf args == "object") then .ok false
  else if isNullJs args then .ok false
  else do
    let s ← getFieldE args "symbol"
    if !(jsTypeOf s == "string") then .ok false
    else do
      let e ← getFieldE args "ea"
      if !(jsTypeOf e == "string") then .ok false
      else do
        let p ← getFieldE args "period"
        if !(jsTypeOf p == "string") then .ok false
        else do
          let df ← getFieldE args "date_from"
          if !(jsTypeOf df == "string") then .ok false
          else do
            let dt ← getFieldE args "date_to"
            if !(jsTypeOf dt == "string") then .ok false
            else do
              let dep ← getFieldE args "deposit"
              if !(jsTypeOf dep == "number") then .ok false
              else do
                let pr ← getFieldE args "params"
                .ok (jsTypeOf pr == "object")

/-- Guard `isOptimizationIdArg`, JS evaluation order. -/
def isOptimizationIdArgE (args : JsValue) : Except Thrown Bool :=
  if !(jsTypeOf args == "object") then .ok false
  else if isNullJs args then .ok false
  else do
    let i ← getFieldE args "optimization_id"
    .ok (jsTypeOf i == "string")

/-- Guard `isSaveOptimizationResultsArg`, JS evaluation order. -/
def isSaveOptimizationResultsArgE (args : JsValue) : Except Thrown Bool :=
  if !(jsTypeOf args == "object") then .ok false
  else if isNullJs args then .ok false
  else do
    let i ← getFieldE args "optimization_id"
    .ok (jsTypeOf i == "string")

/-! ## Dispatcher & backend gateway (mt5-server.ts lines 365-605)

The HTTP layer is abstracted as an oracle `HttpRequest → HttpOutcome`:
the axios client either resolves with a parsed JSON body, or throws an
`AxiosError` (for every non-2xx response under the default
`validateStatus`, and for every transport-level failure). -/

/-- The two backend targets: the MT5 account REST API (`apiClient`,
`MT5_API_ENDPOINT`) and the optimization Flask API (`flaskClient`,
`MT5_FLASK_API`). -/
inductive Backend where
  | account
  | flask
deriving DecidableEq

/-- HTTP method of a backend call. -/
inductive Method where
  | get
  | post
  | put
  | delete
deriving DecidableEq

/-- One backend HTTP operation: target, method, path (base URL
excluded), and JSON body where applicable. -/
structure HttpRequest where
  backend : Backend
  method : Method
  path : String
  body : Option JsValue

/-- Outcome of awaiting an axios call: a resolved response body, or a
thrown `AxiosError` with optional response `(status, parsed body)` and
the transport-level error text. -/
inductive HttpOutcome where
  | ok (data : JsValue)
  | fail (response : Option (Nat × JsValue)) (msg : String)

/-- What the dispatcher decides before any I/O happens: reject the call
(throwing an `McpError`) or perform exactly one backend HTTP
operation. -/
inductive DispatchStep where
  | reject (code : ErrCode) (msg : String)
  | call (req : HttpRequest)

/-- The tool switch of `setupToolHandlers` (mt5-server.ts lines
365-399) combined with each handler's guard check and request
construction (lines 428-605).  A JS `switch` compares the scrutinee
against each case label in order, hence the equality chain.  Path
segments interpolate the raw argument value exactly as the template
literals do. -/
def dispatch (name : String) (args : JsValue) : DispatchStep :=
  if name = "get_account_info" then
    if !isAccountInfoArg args then .reject .invalidParams "Invalid account info arguments"
    else
      -- `args.account ? `/account/${args.account}` : '/account'` (line 432)
      let endpoint :=
        if jsTruthy (getField args "account")
        then "/account/" ++ jsToString (getField args "account")
        else "/account"
      .call ⟨.account, .get, endpoint, none⟩
  else if name = "get_symbol_price" then
    if !isSymbolPriceArg args then .reject .invalidParams "Invalid symbol price arguments"
    else .call ⟨.account, .get, "/symbol/" ++ jsToString (getField args "symbol"), none⟩
  else if name = "get_open_positions" then
    .call ⟨.account, .get, "/positions", none⟩
  else if name = "get_pending_orders" then
    .call ⟨.account, .get, "/orders", none⟩
  else if name = "create_order" then
    if !isOrderArg args then .reject .invalidParams "Invalid order arguments"
    else .call ⟨.account, .post, "/order", some args⟩
  else if name = "modify_order" then
    if !isModifyOrderArg args then .reject .invalidParams "Invalid modify order arguments"
    else
      .call ⟨.account, .put, "/order/" ++ jsToString (getField args "ticket"),
        some (.obj [("sl", getField args "sl"), ("tp", getField args "tp")])⟩
  else if name = "close_position" then
    if !isCloseOrderArg args then .reject .invalidParams "Invalid close position arguments"
    else .call ⟨.account, .delete, "/position/" ++ jsToString (getField args "ticket"), none⟩
  else if name = "delete_order" then
    if !isCloseOrderArg args then .reject .invalidParams "Invalid delete order arguments"
    else .call ⟨.account, .delete, "/order/" ++ jsToString (getField args "ticket"), none⟩
  else if name = "run_optimization" then
    if !isRunOptimizationArg args then .reject .invalidParams "Invalid run_optimization arguments"
    else .call ⟨.flask, .post, "/optimize", some args⟩
  else if name = "get_optimization_status" then
    if !isOptimizationIdArg args then .reject .invalidParams "Invalid get_optimization_status arguments"
    else .call ⟨.flask, .get, "/optimization_status/" ++ jsToString (getField args "optimization_id"), none⟩
  else if name = "get_optimization_results" then
    if !isOptimizationIdArg args then .reject .invalidParams "Invalid get_optimization_results arguments"
    else .call ⟨.flask, .get, "/optimization_results/" ++ jsToString (getField args "optimization_id"), none⟩
  else if name = "save_optimization_results" then
    if !isSaveOptimizationResultsArg args then .reject .invalidParams "Invalid save_optimization_results arguments"
    else .call ⟨.flask, .post, "/save_results", some args⟩
  else
    .reject .methodNotFound ("Unknown tool: " ++ name)

/-- The HTTP requests a tool call issues (none when the dispatcher
rejects, exactly one otherwise). -/
def requestsIssued (name : String) (args : JsValue) : List HttpRequest :=
  match dispatch name args with
  | .reject _ _ => []
  | .call r => [r]

/-- A content block of a tool result; the server only ever produces
`\x7b type: 'text', text \x7d` blocks. -/
inductive ContentBlock where
  | text (s : String)

/-- A tool-call result object: content blocks plus the `isError` mark
(absent on the success path, which JS reads as false). -/
structure ToolResult where
  content : List ContentBlock
  isError : Bool

/-- The body of the `CallToolRequestSchema` handler before its `catch`:
reject → throw `McpError`; otherwise await the backend call, which
either resolves (wrap the body as one pretty-printed text content
block) or throws the axios error. -/
def runToolCall (http : HttpRequest → HttpOutcome) (name : String) (args : JsValue) :
    Except Thrown ToolResult :=
  match dispatch name args with
  | .reject c m => .error (.mcp c m)
  | .call req =>
    match http req with
    | .ok data => .ok ⟨[.text (stringifyText data)], false⟩
    | .fail resp msg => .error (.axios resp msg)

/-- The error message displayed for an axios failure (mt5-server.ts
line 402): `error.response?.data?.message || error.message`, then
template interpolation. -/
def axiosDisplayMsg (resp : Option (Nat × JsValue)) (msg : String) : String :=
  match resp with
  | some (_, data) =>
    let m := getField data "message"
    if jsTruthy m then jsToString m else msg
  | none => msg

/-- The `catch` block of the tool-call handler (mt5-server.ts lines
400-422): an axios error becomes a success-shaped result with an
error-marked content block; an `McpError` is rethrown; any other error
is wrapped into an `McpError` with code `InternalError`. -/
def catchToolErrors (r : Except Thrown ToolResult) : Except Thrown ToolResult :=
  match r with
  | .ok v => .ok v
  | .error (.axios resp msg) =>
    .ok ⟨[.text ("MetaTrader 5 API error: " ++ axiosDisplayMsg resp msg)], true⟩
  | .error (.mcp c m) => .error (.mcp c m)
  | .error (.js m) => .error (.mcp .internalError ("Unexpected error: " ++ m))

/-- The complete `CallToolRequestSchema` handler. -/
def handleToolCall (http : HttpRequest → HttpOutcome) (name : String) (args : JsValue) :
    Except Thrown ToolResult :=
  catchToolErrors (runToolCall http name args)

/-- The uniform response envelope: a success-tagged tool result, or a
protocol-level error response (code + message), as the MCP SDK emits
for a thrown `McpError` (in `server.js` the same shape is returned
directly as a JSON-RPC `error` member). -/
inductive Envelope where
  | success (r : ToolResult)
  | failure (code : ErrCode) (msg : String)

/-- The SDK boundary: a value returned by the handler becomes a
success-tagged envelope; a thrown `McpError` becomes an error-tagged
envelope; any other escaped exception would also be normalized by the
SDK's catch-all into an `InternalError` envelope. -/
def handle (http : HttpRequest → HttpOutcome) (name : String) (args : JsValue) : Envelope :=
  match handleToolCall http name args with
  | .ok r => .success r
  | .error (.mcp c m) => .failure c m
  | .error (.axios _ m) => .failure .internalError m
  | .error (.js m) => .failure .internalError m

/-- The SDK boundary with the exception channel kept visible: only a
thrown `McpError` is converted; any other exception escaping
`handleToolCall` is re-raised.  That this computation never ends in
`.error` (theorem `C7_handle_never_raises`) is exactly the "never
raises to its caller" contract. -/
def sdkDispatch (http : HttpRequest → HttpOutcome) (name : String) (args : JsValue) :
    Except Thrown Envelope :=
  match handleToolCall http name args with
  | .ok r => .ok (.success r)
  | .error (.mcp c m) => .ok (.failure c m)
  | .error e => .error e

/-- The registry: the 12 tool names declared by `ListToolsRequestSchema`
(mt5-server.ts lines 169-362). -/
def toolNames : List String :=
  ["get_account_info", "get_symbol_price", "get_open_positions", "get_pending_orders",
   "create_order", "modify_order", "close_position", "delete_order",
   "run_optimization", "get_optimization_status", "get_optimization_results",
   "save_optimization_results"]

/-- The `required` arrays of the declared input schemas (mt5-server.ts
lines 183, 197, 206, 215, 253, 275, 289, 303, 323, 334, 345, 358). -/
def requiredParams : String → List String
  | "get_symbol_price" => ["symbol"]
  | "create_order" => ["symbol", "type", "volume"]
  | "modify_order" => ["ticket"]
  | "close_position" => ["ticket"]
  | "delete_order" => ["ticket"]
  | "run_optimization" => ["symbol", "ea", "period", "date_from", "date_to", "deposit", "params"]
  | "get_optimization_status" => ["optimization_id"]
  | "get_optimization_results" => ["optimization_id"]
  | "save_optimization_results" => ["optimization_id"]
  | _ => []

/-! ## Transport framer (server.js lines 455-484)

The stdin handler keeps a string buffer and repeatedly: searches for
the leftmost match of the regex `Content-Length: (\d+)\r\n\r\n`, stops
if there is none or if the buffer holds fewer than
`headerEnd + contentLength` characters, otherwise slices out the
payload and drops everything up to `contentEnd`.

The buffer is modelled as `List Char`.  JS string indices count UTF-16
code units; for the basic-multilingual-plane text handled here one
character is one code unit, so character indexing is faithful.  Note
that the decoder counts *characters* while the specification's framing
contract states the header carries the payload's *byte* length. -/

/-- The literal `"Content-Length: "` of the framing regex. -/
def clHeaderChars : List Char := "Content-Length: ".data

/-- The `\r\n\r\n` terminator of the framing header. -/
def crlf2 : List Char := ['\r', '\n', '\r', '\n']

/-- Evaluation of `parseInt(ds, 10)` on a digit string. -/
def digitsVal (ds : List Char) : Nat :=
  ds.foldl (fun a c => a * 10 + (c.toNat - 48)) 0

/-- Try to match `Content-Length: (\d+)\r\n\r\n` at the start of the
buffer.  The regex' greedy `\d+` takes the maximal digit run and cannot
backtrack successfully (a shorter run leaves a digit where `\r` is
required), so matching-at-a-position is: literal header text, maximal
non-empty digit run, then `\r\n\r\n`.  Returns
(length of the whole match, parsed content length). -/
def headerAt (buf : List Char) : Option (Nat × Nat) :=
  if clHeaderChars.isPrefixOf buf then
    let rest := buf.drop clHeaderChars.length
    let ds := rest.takeWhile (fun c => c.isDigit)
    if ds.isEmpty then none
    else if crlf2.isPrefixOf (rest.drop ds.length) then
      some (clHeaderChars.length + ds.length + 4, digitsVal ds)
    else none
  else none

/-- Search `buffer.match(/Content-Length: (\d+)\r\n\r\n/)`: the leftmost
position admitting a match.  Returns (match index, match length,
parsed content length). -/
def findHeader : List Char → Option (Nat × Nat × Nat)
  | [] => none
  | c :: tl =>
    match headerAt (c :: tl) with
    | some (hl, n) => some (0, hl, n)
    | none =>
      match findHeader tl with
      | some (i, hl, n) => some (i + 1, hl, n)
      | none => none

theorem headerAt_pos {buf : List Char} {hl n : Nat} (h : headerAt buf = some (hl, n)) :
    0 < hl := by
  unfold headerAt at h
  split at h
  · dsimp only at h
    split at h
    · exact absurd h (by simp)
    · split at h
      · simp only [Option.some.injEq, Prod.mk.injEq] at h
        omega
      · exact absurd h (by simp)
  · exact absurd h (by simp)

theorem findHeader_pos :
    ∀ {buf : List Char} {i hl n : Nat}, findHeader buf = some (i, hl, n) → 0 < hl := by
  intro buf
  induction buf with
  | nil => intro i hl n h; simp [findHeader] at h
  | cons c tl ih =>
    intro i hl n h
    unfold findHeader at h
    split at h
    · rename_i heq
      simp only [Option.some.injEq, Prod.mk.injEq] at h
      obtain ⟨-, h2, -⟩ := h
      subst h2
      exact headerAt_pos heq
    · split at h
      · rename_i heq
        simp only [Option.some.injEq, Prod.mk.injEq] at h
        obtain ⟨-, h2, -⟩ := h
        subst h2
        exact ih heq
      · exact absurd h (by simp)

/-- The `while (true)` extraction loop: returns the extracted payloads
in order and the remaining buffer.  Mirrors server.js lines 460-483
(the per-message `JSON.parse`/handling inside the loop does not touch
the buffer and is modelled separately). -/
def processBuffer (buf : List Char) : List (List Char) × List Char :=
  match hfind : findHeader buf with
  | none => ([], buf)
  | some (idx, hl, n) =>
    if hok : buf.length < idx + hl + n then ([], buf)
    else
      let content := (buf.drop (idx + hl)).take n
      let pr := processBuffer (buf.drop (idx + hl + n))
      (content :: pr.1, pr.2)
termination_by buf.length
decreasing_by
  have hpos := findHeader_pos hfind
  simp only [List.length_drop]
  omega

/-- One `data` event: append the chunk to the buffer and run the
extraction loop, accumulating extracted messages. -/
def feedStep (st : List (List Char) × List Char) (chunk : List Char) :
    List (List Char) × List Char :=
  let pr := processBuffer (st.2 ++ chunk)
  (st.1 ++ pr.1, pr.2)

/-- Feed a sequence of chunks to the stdin handler, starting from the
empty buffer. -/
def feedChunks (chunks : List (List Char)) : List (List Char) × List Char :=
  chunks.foldl feedStep ([], [])

/-- Byte length of a string under UTF-8. -/
def byteLen (m : List Char) : Nat :=
  (m.map Char.utf8Size).sum

/-- Decimal digits of a natural number. -/
def natDigits (n : Nat) : List Char :=
  if h : n < 10 then [Nat.digitChar n]
  else
    have : n / 10 < n := Nat.div_lt_self (by omega) (by omega)
    natDigits (n / 10) ++ [Nat.digitChar (n % 10)]
termination_by n

/-- The specified outbound framing of one message: a header stating the
exact byte length of the serialized payload, then the payload. -/
def encodeMsg (m : List Char) : List Char :=
  clHeaderChars ++ natDigits (byteLen m) ++ crlf2 ++ m

/-- Concatenated framing of a message sequence. -/
def encodeAll (msgs : List (List Char)) : List Char :=
  (msgs.map encodeMsg).flatten

/-- A message all of whose characters are ASCII (one UTF-8 byte and one
UTF-16 code unit each). -/
def asciiMsg (m : List Char) : Prop :=
  ∀ c ∈ m, c.toNat < 128

instance (m : List Char) : Decidable (asciiMsg m) := by
  unfold asciiMsg; infer_instance

/-- The per-frame processing inside the extraction loop (server.js
lines 473-482): `JSON.parse` the payload and answer it, or log and
continue.  `parse` and `respond` abstract `JSON.parse` and
`handleMcpRequest`+serialization; a frame whose payload does not parse
produces no response but does not disturb the rest. -/
def framesToResponses (parse : List Char → Option JsValue)
    (respond : JsValue → List Char) (frames : List (List Char)) : List (List Char) :=
  frames.filterMap (fun f => (parse f).map respond)

/-! ## Dispatch unfolding lemmas

One definitional lemma per registered tool, so later proofs can reason
about a single tool without re-traversing the name-comparison chain. -/

theorem dispatch_eq_get_account_info (args : JsValue) :
    dispatch "get_account_info" args =
      if !isAccountInfoArg args then .reject .invalidParams "Invalid account info arguments"
      else
        .call ⟨.account, .get,
          (if jsTruthy (getField args "account")
           then "/account/" ++ jsToString (getField args "account")
           else "/account"), none⟩ := rfl

theorem dispatch_eq_get_symbol_price (args : JsValue) :
    dispatch "get_symbol_price" args =
      if !isSymbolPriceArg args then .reject .invalidParams "Invalid symbol price arguments"
      else .call ⟨.account, .get, "/symbol/" ++ jsToString (getField args "symbol"), none⟩ := rfl

theorem dispatch_eq_get_open_positions (args : JsValue) :
    dispatch "get_open_positions" args = .call ⟨.account, .get, "/positions", none⟩ := rfl

theorem dispatch_eq_get_pending_orders (args : JsValue) :
    dispatch "get_pending_orders" args = .call ⟨.account, .get, "/orders", none⟩ := rfl

theorem dispatch_eq_create_order (args : JsValue) :
    dispatch "create_order" args =
      if !isOrderArg args then .reject .invalidParams "Invalid order arguments"
      else .call ⟨.account, .post, "/order", some args⟩ := rfl

theorem dispatch_eq_modify_order (args : JsValue) :
    dispatch "modify_order" args =
      if !isModifyOrderArg args then .reject .invalidParams "Invalid modify order arguments"
      else
        .call ⟨.account, .put, "/order/" ++ jsToString (getField args "ticket"),
          some (.obj [("sl", getField args "sl"), ("tp", getField args "tp")])⟩ := rfl

theorem dispatch_eq_close_position (args : JsValue) :
    dispatch "close_position" args =
      if !isCloseOrderArg args then .reject .invalidParams "Invalid close position arguments"
      else .call ⟨.account, .delete, "/position/" ++ jsToString (getField args "ticket"), none⟩ := rfl

theorem dispatch_eq_delete_order (args : JsValue) :
    dispatch "delete_order" args =
      if !isCloseOrderArg args then .reject .invalidParams "Invalid delete order arguments"
      else .call ⟨.account, .delete, "/order/" ++ jsToString (getField args "ticket"), none⟩ := rfl

theorem dispatch_eq_run_optimization (args : JsValue) :
    dispatch "run_optimization" args =
      if !isRunOptimizationArg args then .reject .invalidParams "Invalid run_optimization arguments"
      else .call ⟨.flask, .post, "/optimize", some args⟩ := rfl

theorem dispatch_eq_get_optimization_status (args : JsValue) :
    dispatch "get_optimization_status" args =
      if !isOptimizationIdArg args then .reject .invalidParams "Invalid get_optimization_status arguments"
      else .call ⟨.flask, .get, "/optimization_status/" ++ jsToString (getField args "optimization_id"), none⟩ := rfl

theorem dispatch_eq_get_optimization_results (args : JsValue) :
    dispatch "get_optimization_results" args =
      if !isOptimizationIdArg args then .reject .invalidParams "Invalid get_optimization_results arguments"
      else .call ⟨.flask, .get, "/optimization_results/" ++ jsToString (getField args "optimization_id"), none⟩ := rfl

theorem dispatch_eq_save_optimization_results (args : JsValue) :
    dispatch "save_optimization_results" args =
      if !isSaveOptimizationResultsArg args then .reject .invalidParams "Invalid save_optimization_results arguments"
      else .call ⟨.flask, .post, "/save_results", some args⟩ := rfl

/-- When the dispatcher rejects, the thrown `McpError` surfaces as an
error-tagged envelope and no HTTP request is issued. -/
theorem reject_conclusion {name : String} {args : JsValue} {c : ErrCode} {m : String}
    (hd : dispatch name args = .reject c m) (http : HttpRequest → HttpOutcome) :
    handle http name args = .failure c m ∧ requestsIssued name args = [] := by
  constructor
  · simp [handle, handleToolCall, runToolCall, catchToolErrors, hd]
  · simp [requestsIssued, hd]

/-! ## Claim C1 -/

/-- A fully-populated `run_optimization` argument object whose
`optimization_mode` field is `mode`. -/
def runOptArgs (mode : JsValue) : JsValue :=
  .obj [("symbol", .str "EURUSD"), ("ea", .str "MyExpert.ex5"), ("period", .str "H1"),
        ("date_from", .str "2024-01-01"), ("date_to", .str "2024-02-01"),
        ("deposit", .num 1000), ("params", .obj []), ("optimization_mode", mode)]

/-- C1 counterexample: a `modify_order` call whose present `sl` is a
string, and a `run_optimization` call whose `optimization_mode` is the
out-of-enum string "random", both pass validation and issue the backend
HTTP call, contradicting the claim that they are rejected with a
ValidationError and no HTTP call. -/
theorem C1_counterexample :
    dispatch "modify_order" (.obj [("ticket", .num 1), ("sl", .str "not-a-number")]) =
      .call ⟨.account, .put, "/order/1",
        some (.obj [("sl", .str "not-a-number"), ("tp", .undefined)])⟩ ∧
    requestsIssued "modify_order" (.obj [("ticket", .num 1), ("sl", .str "not-a-number")]) =
      [⟨.account, .put, "/order/1", some (.obj [("sl", .str "not-a-number"), ("tp", .undefined)])⟩] ∧
    dispatch "run_optimization" (runOptArgs (.str "random")) =
      .call ⟨.flask, .post, "/optimize", some (runOptArgs (.str "random"))⟩ ∧
    requestsIssued "run_optimization" (runOptArgs (.str "random")) =
      [⟨.flask, .post, "/optimize", some (runOptArgs (.str "random"))⟩] :=
  ⟨rfl, rfl, rfl, rfl⟩

/-- C1 amended: validation checks only the parameters its guard
inspects.  A `modify_order` call with a numeric `ticket` passes
validation whatever the present `sl`/`tp` values are, and a
`run_optimization` call with its seven required parameters passes
validation whatever `optimization_mode` holds; in both cases the
backend HTTP call is issued. -/
theorem C1_unchecked_params_pass (t : Rat) (sl tp mode : JsValue) :
    dispatch "modify_order" (.obj [("ticket", .num t), ("sl", sl), ("tp", tp)]) =
      .call ⟨.account, .put, "/order/" ++ jsNumStr t, some (.obj [("sl", sl), ("tp", tp)])⟩ ∧
    dispatch "run_optimization" (runOptArgs mode) =
      .call ⟨.flask, .post, "/optimize", some (runOptArgs mode)⟩ :=
  ⟨rfl, rfl⟩

/-! ## Claim C2 -/

/-- C2 counterexample: an HTTP 500 whose error body contains the
(present, but empty-string) `message` field does not yield
"MetaTrader 5 API error: " followed by that message; because the code
tests `error.response?.data?.message || error.message` by truthiness,
the falsy empty message falls back to the transport error text. -/
theorem C2_counterexample :
    handle (fun _ => .fail (some (500, .obj [("message", .str "")]))
        "Request failed with status code 500") "get_open_positions" (.obj []) =
      .success ⟨[.text "MetaTrader 5 API error: Request failed with status code 500"], true⟩ ∧
    "MetaTrader 5 API error: Request failed with status code 500" ≠
      ("MetaTrader 5 API error: " ++ "") :=
  ⟨rfl, by decide⟩

/-- C2 amended: when the backend HTTP request fails with a response
whose body is `data`, the handler returns a success-tagged envelope
whose single content block is error-marked and carries
"MetaTrader 5 API error: " followed by the `message` field of `data`
when that field is truthy (in particular any non-empty string), and by
the transport error text otherwise (absent or falsy message). -/
theorem C2_backend_error_message (http : HttpRequest → HttpOutcome) (name : String)
    (args : JsValue) (req : HttpRequest) (status : Nat) (data : JsValue) (tmsg : String)
    (hd : dispatch name args = .call req)
    (hh : http req = .fail (some (status, data)) tmsg) :
    handle http name args = .success ⟨[.text ("MetaTrader 5 API error: " ++
      (if jsTruthy (getField data "message") then jsToString (getField data "message")
       else tmsg))], true⟩ := by
  simp [handle, handleToolCall, runToolCall, catchToolErrors, axiosDisplayMsg, hd, hh]

/-- C2 witness: the spec's own example, HTTP 500 with body
`\x7b"message":"MT5 not initialized"\x7d`. -/
theorem C2_backend_error_message_witness :
    handle (fun _ => .fail (some (500, .obj [("message", .str "MT5 not initialized")]))
        "Request failed with status code 500") "get_open_positions" (.obj []) =
      .success ⟨[.text "MetaTrader 5 API error: MT5 not initialized"], true⟩ := by
  have h := C2_backend_error_message
    (fun _ => .fail (some (500, .obj [("message", .str "MT5 not initialized")]))
      "Request failed with status code 500")
    "get_open_positions" (.obj []) ⟨.account, .get, "/positions", none⟩ 500
    (.obj [("message", .str "MT5 not initialized")]) "Request failed with status code 500"
    rfl rfl
  simpa [getField, lookupField, jsTruthy, jsToString] using h

/-! ## Claim C5 -/

/-- The `create_order` arguments of the spec's example. -/
def c5Args : JsValue :=
  .obj [("symbol", .str "EURUSD"), ("type", .str "BUY"), ("volume", .num (0.1 : Rat))]

/-- C5 counterexample: on the 200 response `\x7bticket:123\x7d` the
single text block carries the two-space-indented serialization
`"\x7b\n  \"ticket\": 123\n\x7d"` (the handler calls
`JSON.stringify(data, null, 2)`), which is not the compact JSON text
`\x7b"ticket":123\x7d` the claim states. -/
theorem C5_counterexample :
    handle (fun _ => .ok (.obj [("ticket", .num 123)])) "create_order" c5Args =
      .success ⟨[.text "\x7b\n  \"ticket\": 123\n\x7d"], false⟩ ∧
    ("\x7b\n  \"ticket\": 123\n\x7d" : String) ≠ "\x7b\"ticket\":123\x7d" :=
  ⟨rfl, by decide⟩

/-- C5 amended: the call issues exactly one `POST /order` with the
argument object as body to the Account backend, and the 200 response
`\x7bticket:123\x7d` yields a success envelope whose single content
block is a text block holding `JSON.stringify` of that body with
two-space indentation. -/
theorem C5_create_order_flow :
    requestsIssued "create_order" c5Args = [⟨.account, .post, "/order", some c5Args⟩] ∧
    handle (fun _ => .ok (.obj [("ticket", .num 123)])) "create_order" c5Args =
      .success ⟨[.text (stringifyText (.obj [("ticket", .num 123)]))], false⟩ ∧
    stringifyText (.obj [("ticket", .num 123)]) = "\x7b\n  \"ticket\": 123\n\x7d" :=
  ⟨rfl, rfl, rfl⟩

/-! ## Claim C9 -/

/-- C9 counterexample: `\x7baccount: null\x7d` is falsy but is *not*
treated as an absent account: validation rejects it and no request is
issued, where the claim's "any falsy account value is treated as
absent" would demand `GET /account`. -/
theorem C9_counterexample :
    dispatch "get_account_info" (.obj [("account", .null)]) =
      .reject .invalidParams "Invalid account info arguments" ∧
    requestsIssued "get_account_info" (.obj [("account", .null)]) = [] :=
  ⟨rfl, rfl⟩

/-- C9 amended: `\x7baccount: 0\x7d` passes validation and issues
`GET /account` (the number 0 is falsy, so the default-account endpoint
is chosen), while any nonzero account number q issues `GET /account/q`;
falsy values other than 0 and undefined (null, false, "") are rejected
by validation instead of being treated as absent. -/
theorem C9_account_zero_default :
    dispatch "get_account_info" (.obj [("account", .num 0)]) =
      .call ⟨.account, .get, "/account", none⟩ ∧
    requestsIssued "get_account_info" (.obj [("account", .num 0)]) =
      [⟨.account, .get, "/account", none⟩] ∧
    ∀ q : Rat, q ≠ 0 →
      dispatch "get_account_info" (.obj [("account", .num q)]) =
        .call ⟨.account, .get, "/account/" ++ jsNumStr q, none⟩ := by
  refine ⟨rfl, rfl, ?_⟩
  intro q hq
  rw [dispatch_eq_get_account_info]
  simp [isAccountInfoArg, getField, lookupField, jsTypeOf, isUndefJs, isNullJs,
    jsTruthy, jsToString, hq]

/-- C9 witness: a concrete nonzero account number. -/
theorem C9_account_zero_default_witness :
    dispatch "get_account_info" (.obj [("account", .num 7)]) =
      .call ⟨.account, .get, "/account/" ++ jsNumStr 7, none⟩ :=
  C9_account_zero_default.2.2 7 (by norm_num)

/-! ## Claim C3 -/

/-- C3: a tool name outside the 12-name registry is answered with a
MethodNotFound error envelope ("Unknown tool: ...") and no backend HTTP
request is issued. -/
theorem C3_unknown_tool (name : String) (h : name ∉ toolNames) (args : JsValue)
    (http : HttpRequest → HttpOutcome) :
    handle http name args = .failure .methodNotFound ("Unknown tool: " ++ name) ∧
    requestsIssued name args = [] := by
  simp only [toolNames, List.mem_cons, List.not_mem_nil, or_false, not_or] at h
  obtain ⟨h1, h2, h3, h4, h5, h6, h7, h8, h9, h10, h11, h12⟩ := h
  have hd : dispatch name args = .reject .methodNotFound ("Unknown tool: " ++ name) := by
    unfold dispatch
    simp [h1, h2, h3, h4, h5, h6, h7, h8, h9, h10, h11, h12]
  exact reject_conclusion hd http

/-- C3 witness: a concrete unknown tool name. -/
theorem C3_unknown_tool_witness :
    ("frobnicate" : String) ∉ toolNames ∧
    (handle (fun _ => .ok .null) "frobnicate" .null =
      .failure .methodNotFound ("Unknown tool: " ++ "frobnicate") ∧
     requestsIssued "frobnicate" .null = []) :=
  ⟨by decide, C3_unknown_tool "frobnicate" (by decide) .null (fun _ => .ok .null)⟩

/-! ## Claim C4 -/

/-- Packaging of a dispatcher rejection with code InvalidParams. -/
theorem invalid_case {name : String} {args : JsValue} {m : String}
    (hd : dispatch name args = .reject .invalidParams m) (http : HttpRequest → HttpOutcome) :
    (∃ mm, handle http name args = .failure .invalidParams mm) ∧
    requestsIssued name args = [] :=
  ⟨⟨m, (reject_conclusion hd http).1⟩, (reject_conclusion hd http).2⟩

/-- C4: for each of the 12 registered tools and each parameter its
declared input schema marks required, a call whose argument object
lacks that parameter is rejected with an InvalidParams error envelope
and no backend HTTP request is issued. -/
theorem C4_missing_required_param (name : String) (hn : name ∈ toolNames) (p : String)
    (hp : p ∈ requiredParams name) (fields : List (String × JsValue))
    (hf : lookupField fields p = none) (http : HttpRequest → HttpOutcome) :
    (∃ m, handle http name (.obj fields) = .failure .invalidParams m) ∧
    requestsIssued name (.obj fields) = [] := by
  fin_cases hn
  · -- get_account_info: no required parameters
    simp [requiredParams] at hp
  · -- get_symbol_price
    simp only [requiredParams, List.mem_singleton] at hp
    subst hp
    exact invalid_case (show dispatch "get_symbol_price" (.obj fields) =
        .reject .invalidParams "Invalid symbol price arguments" by
      rw [dispatch_eq_get_symbol_price]
      simp [isSymbolPriceArg, getField, hf, jsTypeOf]) http
  · -- get_open_positions: no required parameters
    simp [requiredParams] at hp
  · -- get_pending_orders: no required parameters
    simp [requiredParams] at hp
  · -- create_order
    simp only [requiredParams, List.mem_cons, List.not_mem_nil, or_false] at hp
    rcases hp with rfl | rfl | rfl <;>
      exact invalid_case (show dispatch "create_order" (.obj fields) =
          .reject .invalidParams "Invalid order arguments" by
        rw [dispatch_eq_create_order]
        simp [isOrderArg, getField, hf, jsTypeOf]) http
  · -- modify_order
    simp only [requiredParams, List.mem_singleton] at hp
    subst hp
    exact invalid_case (show dispatch "modify_order" (.obj fields) =
        .reject .invalidParams "Invalid modify order arguments" by
      rw [dispatch_eq_modify_order]
      simp [isModifyOrderArg, getField, hf, jsTypeOf]) http
  · -- close_position
    simp only [requiredParams, List.mem_singleton] at hp
    subst hp
    exact invalid_case (show dispatch "close_position" (.obj fields) =
        .reject .invalidParams "Invalid close position arguments" by
      rw [dispatch_eq_close_position]
      simp [isCloseOrderArg, getField, hf, jsTypeOf]) http
  · -- delete_order
    simp only [requiredParams, List.mem_singleton] at hp
    subst hp
    exact invalid_case (show dispatch "delete_order" (.obj fields) =
        .reject .invalidParams "Invalid delete order arguments" by
      rw [dispatch_eq_delete_order]
      simp [isCloseOrderArg, getField, hf, jsTypeOf]) http
  · -- run_optimization
    simp only [requiredParams, List.mem_cons, List.not_mem_nil, or_false] at hp
    rcases hp with rfl | rfl | rfl | rfl | rfl | rfl | rfl <;>
      exact invalid_case (show dispatch "run_optimization" (.obj fields) =
          .reject .invalidParams "Invalid run_optimization arguments" by
        rw [dispatch_eq_run_optimization]
        simp [isRunOptimizationArg, getField, hf, jsTypeOf]) http
  · -- get_optimization_status
    simp only [requiredParams, List.mem_singleton] at hp
    subst hp
    exact invalid_case (show dispatch "get_optimization_status" (.obj fields) =
        .reject .invalidParams "Invalid get_optimization_status arguments" by
      rw [dispatch_eq_get_optimization_status]
      simp [isOptimizationIdArg, getField, hf, jsTypeOf]) http
  · -- get_optimization_results
    simp only [requiredParams, List.mem_singleton] at hp
    subst hp
    exact invalid_case (show dispatch "get_optimization_results" (.obj fields) =
        .reject .invalidParams "Invalid get_optimization_results arguments" by
      rw [dispatch_eq_get_optimization_results]
      simp [isOptimizationIdArg, getField, hf, jsTypeOf]) http
  · -- save_optimization_results
    simp only [requiredParams, List.mem_singleton] at hp
    subst hp
    exact invalid_case (show dispatch "save_optimization_results" (.obj fields) =
        .reject .invalidParams "Invalid save_optimization_results arguments" by
      rw [dispatch_eq_save_optimization_results]
      simp [isSaveOptimizationResultsArg, getField, hf, jsTypeOf]) http

/-- C4 witness: `get_symbol_price` with an empty argument object. -/
theorem C4_missing_required_param_witness :
    ("get_symbol_price" : String) ∈ toolNames ∧
    ("symbol" : String) ∈ requiredParams "get_symbol_price" ∧
    ((∃ m, handle (fun _ => .ok .null) "get_symbol_price" (.obj []) =
        .failure .invalidParams m) ∧
     requestsIssued "get_symbol_price" (.obj []) = []) :=
  ⟨by decide, by decide,
   C4_missing_required_param "get_symbol_price" (by decide) "symbol" (by decide) []
     rfl (fun _ => .ok .null)⟩

/-! ## Claim C7 -/

/-- C7: the tool-call handler never lets an exception escape past the
SDK boundary: for every oracle, tool name and argument value the
visible-exception computation ends in `.ok` with exactly the envelope
`handle` describes; every failure (unknown tool, invalid arguments,
backend or transport error) is inside that envelope. -/
theorem C7_handle_never_raises (http : HttpRequest → HttpOutcome) (name : String)
    (args : JsValue) :
    sdkDispatch http name args = Except.ok (handle http name args) := by
  cases hd : dispatch name args with
  | reject c m =>
    simp [sdkDispatch, handle, handleToolCall, catchToolErrors, runToolCall, hd]
  | call req =>
    cases hh : http req with
    | ok data =>
      simp [sdkDispatch, handle, handleToolCall, catchToolErrors, runToolCall, hd, hh]
    | fail resp msg =>
      simp [sdkDispatch, handle, handleToolCall, catchToolErrors, runToolCall, hd, hh]

/-! ## Claim C10 -/

/-- C10: each of the eight argument guards, evaluated with JS
evaluation order and JS property-access partiality, terminates normally
with a boolean on every input value whatsoever — never with a thrown
`TypeError` — and that boolean is the pure predicate used by the
dispatcher.  (The `typeof args === 'object' && args !== null` prefix of
every guard is what shields the later property accesses.) -/
theorem C10_guards_total_pure (v : JsValue) :
    isAccountInfoArgE v = .ok (isAccountInfoArg v) ∧
    isSymbolPriceArgE v = .ok (isSymbolPriceArg v) ∧
    isOrderArgE v = .ok (isOrderArg v) ∧
    isModifyOrderArgE v = .ok (isModifyOrderArg v) ∧
    isCloseOrderArgE v = .ok (isCloseOrderArg v) ∧
    isRunOptimizationArgE v = .ok (isRunOptimizationArg v) ∧
    isOptimizationIdArgE v = .ok (isOptimizationIdArg v) ∧
    isSaveOptimizationResultsArgE v = .ok (isSaveOptimizationResultsArg v) := by
  refine ⟨?_, ?_, ?_, ?_, ?_, ?_, ?_, ?_⟩ <;>
    cases v <;>
    simp [isAccountInfoArgE, isAccountInfoArg, isSymbolPriceArgE, isSymbolPriceArg,
      isOrderArgE, isOrderArg, isModifyOrderArgE, isModifyOrderArg,
      isCloseOrderArgE, isCloseOrderArg, isRunOptimizationArgE, isRunOptimizationArg,
      isOptimizationIdArgE, isOptimizationIdArg,
      isSaveOptimizationResultsArgE, isSaveOptimizationResultsArg,
      getFieldE, getField, jsTypeOf, isNullJs, isUndefJs, Bind.bind, Except.bind] <;>
    (try (split_ifs <;> simp_all))

/-! ## Framing round-trip: auxiliary lemmas -/

theorem digitChar_isDigit {k : Nat} (h : k < 10) : (Nat.digitChar k).isDigit = true := by
  interval_cases k <;> decide

theorem digitChar_toNat {k : Nat} (h : k < 10) : (Nat.digitChar k).toNat = k + 48 := by
  interval_cases k <;> decide

theorem natDigits_ne_nil (n : Nat) : natDigits n ≠ [] := by
  unfold natDigits
  split <;> simp

theorem natDigits_digits (n : Nat) : ∀ c ∈ natDigits n, c.isDigit = true := by
  induction n using Nat.strong_induction_on with
  | _ n ih =>
    unfold natDigits
    split
    · rename_i h
      intro c hc
      simp only [List.mem_singleton] at hc
      subst hc
      exact digitChar_isDigit h
    · rename_i h
      intro c hc
      simp only [List.mem_append, List.mem_singleton] at hc
      rcases hc with hc | hc
      · exact ih (n / 10) (Nat.div_lt_self (by omega) (by omega)) c hc
      · subst hc
        exact digitChar_isDigit (Nat.mod_lt _ (by omega))

theorem digitsVal_append_single (l : List Char) (c : Char) :
    digitsVal (l ++ [c]) = digitsVal l * 10 + (c.toNat - 48) := by
  unfold digitsVal
  rw [List.foldl_append]
  rfl

theorem digitsVal_natDigits (n : Nat) : digitsVal (natDigits n) = n := by
  induction n using Nat.strong_induction_on with
  | _ n ih =>
    unfold natDigits
    split
    · rename_i h
      show digitsVal [Nat.digitChar n] = n
      unfold digitsVal
      simp only [List.foldl_cons, List.foldl_nil, Nat.zero_mul, Nat.zero_add]
      rw [digitChar_toNat h]
      omega
    · rename_i h
      rw [digitsVal_append_single, ih (n / 10) (Nat.div_lt_self (by omega) (by omega)),
        digitChar_toNat (Nat.mod_lt _ (by omega))]
      omega

theorem utf8Size_eq_one {c : Char} (h : c.toNat < 128) : c.utf8Size = 1 := by
  unfold Char.utf8Size
  dsimp only
  rw [if_pos]
  rw [UInt32.le_def, BitVec.le_def]
  show c.toNat ≤ 127
  omega

theorem byteLen_eq_length {m : List Char} (h : asciiMsg m) : byteLen m = m.length := by
  induction m with
  | nil => rfl
  | cons c cs ih =>
    have hc : c.utf8Size = 1 := utf8Size_eq_one (h c (List.mem_cons_self c cs))
    have hcs : asciiMsg cs := fun x hx => h x (List.mem_cons_of_mem c hx)
    simp only [byteLen, List.map_cons, List.sum_cons, hc, List.length_cons]
    rw [show (cs.map Char.utf8Size).sum = byteLen cs from rfl, ih hcs]
    omega

theorem takeWhile_digits_append (ds t : List Char) (hds : ∀ c ∈ ds, c.isDigit = true)
    (ht : t.takeWhile (fun c => c.isDigit) = []) :
    (ds ++ t).takeWhile (fun c => c.isDigit) = ds := by
  have h1 : ds.takeWhile (fun c => c.isDigit) = ds := List.takeWhile_eq_self_iff.mpr hds
  rw [List.takeWhile_append, h1, if_pos rfl, ht, List.append_nil]

theorem headerAt_wellformed (n : Nat) (tail : List Char) :
    headerAt (clHeaderChars ++ (natDigits n ++ (crlf2 ++ tail))) =
      some (clHeaderChars.length + (natDigits n).length + 4, n) := by
  unfold headerAt
  rw [if_pos (List.isPrefixOf_iff_prefix.mpr (List.prefix_append _ _))]
  dsimp only
  rw [List.drop_left]
  have htw : ((natDigits n) ++ (crlf2 ++ tail)).takeWhile (fun c => c.isDigit) = natDigits n := by
    apply takeWhile_digits_append _ _ (natDigits_digits n)
    rw [show crlf2 ++ tail = '\x0d' :: ('\x0a' :: '\x0d' :: '\x0a' :: tail) from rfl]
    exact List.takeWhile_cons_of_neg (by decide)
  rw [htw]
  rw [if_neg (by simp [List.isEmpty_iff, natDigits_ne_nil n])]
  rw [List.drop_left]
  rw [if_pos (List.isPrefixOf_iff_prefix.mpr (List.prefix_append _ _))]
  rw [digitsVal_natDigits]

theorem findHeader_of_headerAt {buf : List Char} {hl n : Nat}
    (h : headerAt buf = some (hl, n)) : findHeader buf = some (0, hl, n) := by
  cases buf with
  | nil =>
    rw [show headerAt ([] : List Char) = none from rfl] at h
    exact absurd h (by simp)
  | cons c tl =>
    unfold findHeader
    rw [h]

theorem findHeader_none_of_all_none {buf : List Char}
    (h : ∀ i, headerAt (buf.drop i) = none) : findHeader buf = none := by
  induction buf with
  | nil => rfl
  | cons c tl ih =>
    unfold findHeader
    have h0 := h 0
    simp only [List.drop_zero] at h0
    rw [h0]
    have htl : findHeader tl = none := ih (fun i => by
      have := h (i + 1)
      simpa using this)
    rw [htl]

theorem noC_of_not_mem {l : List Char} (h : 'C' ∉ l) : ∀ c ∈ l, c ≠ 'C' :=
  fun c hc hceq => h (hceq ▸ hc)

theorem headerAt_none_of_no_C {buf : List Char} (h : ∀ c ∈ buf, c ≠ 'C') :
    headerAt buf = none := by
  cases buf with
  | nil => rfl
  | cons c tl =>
    unfold headerAt
    rw [if_neg]
    intro hpre
    rw [List.isPrefixOf_iff_prefix] at hpre
    have hcl : clHeaderChars = 'C' :: "ontent-Length: ".data := rfl
    rw [hcl, List.cons_prefix_cons] at hpre
    exact h c (List.mem_cons_self c tl) hpre.1.symm

theorem headerAt_short {p : List Char} (h : p.length < clHeaderChars.length) :
    headerAt p = none := by
  unfold headerAt
  rw [if_neg]
  intro hpre
  rw [List.isPrefixOf_iff_prefix] at hpre
  exact absurd hpre.length_le (by omega)

/-- No `'C'` occurs after position 0 of a well-formed header, so no
regex match can start inside one. -/
theorem noC_header_tail (n : Nat) :
    'C' ∉ "ontent-Length: ".data ++ natDigits n ++ crlf2 := by
  simp only [List.mem_append, not_or]
  refine ⟨⟨by decide, ?_⟩, by decide⟩
  intro hmem
  have := natDigits_digits n 'C' hmem
  exact absurd this (by decide)

/-- A strict prefix of a framing header admits no match anywhere. -/
theorem findHeader_header_fragment {n : Nat} {p : List Char}
    (hp : p <+: clHeaderChars ++ natDigits n ++ crlf2)
    (hlen : p.length < clHeaderChars.length + (natDigits n).length + 4) :
    findHeader p = none := by
  apply findHeader_none_of_all_none
  intro i
  cases i with
  | succ j =>
    apply headerAt_none_of_no_C
    intro c hc
    have hcp : c ∈ p.drop 1 := by
      have hdd : p.drop (j + 1) = (p.drop 1).drop j := by
        rw [List.drop_drop, Nat.add_comm]
      rw [hdd] at hc
      exact List.mem_of_mem_drop hc
    have hpd : p.drop 1 <+: (clHeaderChars ++ natDigits n ++ crlf2).drop 1 := by
      obtain ⟨t, ht⟩ := hp
      rw [← ht]
      cases p with
      | nil => simp
      | cons a q =>
        simp only [List.cons_append, List.drop_succ_cons, List.drop_zero]
        exact List.prefix_append _ _
    have hdr1 : (clHeaderChars ++ natDigits n ++ crlf2).drop 1 =
        "ontent-Length: ".data ++ natDigits n ++ crlf2 := rfl
    rw [hdr1] at hpd
    exact noC_of_not_mem (noC_header_tail n) c (hpd.subset hcp)
  | zero =>
    simp only [List.drop_zero]
    by_cases h16 : p.length < clHeaderChars.length
    · exact headerAt_short h16
    · push_neg at h16
      have hclpre : clHeaderChars <+: clHeaderChars ++ natDigits n ++ crlf2 := by
        rw [List.append_assoc]
        exact List.prefix_append _ _
      have hclp : clHeaderChars <+: p :=
        List.prefix_of_prefix_length_le hclpre hp h16
      obtain ⟨q, hq⟩ := hclp
      have hqpre : q <+: natDigits n ++ crlf2 := by
        rw [← hq, List.append_assoc] at hp
        exact (List.prefix_append_right_inj _).mp hp
      have hqlen : q.length < (natDigits n).length + 4 := by
        have hlq := congrArg List.length hq
        simp only [List.length_append] at hlq
        omega
      rw [← hq]
      unfold headerAt
      rw [if_pos (List.isPrefixOf_iff_prefix.mpr (List.prefix_append _ _))]
      dsimp only
      rw [List.drop_left]
      by_cases hqd : q.length ≤ (natDigits n).length
      · -- q reaches at most the end of the digit run
        have hqdig : q <+: natDigits n :=
          List.prefix_of_prefix_length_le hqpre (List.prefix_append _ _) hqd
        have htwq : q.takeWhile (fun c => c.isDigit) = q :=
          List.takeWhile_eq_self_iff.mpr (fun c hc => natDigits_digits n c (hqdig.subset hc))
        rw [htwq]
        cases hqe : q.isEmpty with
        | true => rw [if_pos rfl]
        | false =>
          rw [if_neg (by simp)]
          rw [List.drop_length]
          rw [if_neg (by decide)]
      · -- q extends past the digits into a strict prefix of the terminator
        push_neg at hqd
        have hndq : natDigits n <+: q :=
          List.prefix_of_prefix_length_le (List.prefix_append _ _) hqpre (le_of_lt hqd)
        obtain ⟨t, htq⟩ := hndq
        have htpre : t <+: crlf2 := by
          rw [← htq] at hqpre
          exact (List.prefix_append_right_inj _).mp hqpre
        have htlen : t.length < 4 := by
          have hlt := congrArg List.length htq
          simp only [List.length_append] at hlt
          omega
        rw [← htq]
        have htwt : (natDigits n ++ t).takeWhile (fun c => c.isDigit) = natDigits n := by
          apply takeWhile_digits_append _ _ (natDigits_digits n)
          cases t with
          | nil => rfl
          | cons a t2 =>
            have ha : a = '\x0d' := (List.cons_prefix_cons.mp htpre).1
            rw [ha]
            exact List.takeWhile_cons_of_neg (by decide)
        rw [htwt]
        rw [if_neg (by simp [List.isEmpty_iff, natDigits_ne_nil n])]
        rw [List.drop_left]
        rw [if_neg]
        intro hcp
        rw [List.isPrefixOf_iff_prefix] at hcp
        have h4 := hcp.length_le
        rw [show crlf2.length = 4 from rfl] at h4
        omega

/-! ## processBuffer characterization -/

theorem processBuffer_no_frame {p : List Char} (h : findHeader p = none) :
    processBuffer p = ([], p) := by
  conv_lhs => unfold processBuffer
  split
  · rfl
  · rename_i idx hl n heq
    rw [h] at heq
    cases heq

theorem processBuffer_incomplete {buf : List Char} {i hl n : Nat}
    (h : findHeader buf = some (i, hl, n)) (hlt : buf.length < i + hl + n) :
    processBuffer buf = ([], buf) := by
  conv_lhs => unfold processBuffer
  split
  · rfl
  · rename_i idx2 hl2 n2 heq
    rw [h] at heq
    obtain ⟨rfl, rfl, rfl⟩ : idx2 = i ∧ hl2 = hl ∧ n2 = n := by
      simpa using heq.symm
    rw [dif_pos hlt]

theorem processBuffer_step (buf : List Char) (i hl n : Nat)
    (h : findHeader buf = some (i, hl, n)) (hge : ¬ buf.length < i + hl + n) :
    processBuffer buf =
      (((buf.drop (i + hl)).take n) :: (processBuffer (buf.drop (i + hl + n))).1,
       (processBuffer (buf.drop (i + hl + n))).2) := by
  conv_lhs => unfold processBuffer
  split
  · rename_i heq
    rw [h] at heq
    cases heq
  · rename_i idx2 hl2 n2 heq
    rw [h] at heq
    obtain ⟨rfl, rfl, rfl⟩ : idx2 = i ∧ hl2 = hl ∧ n2 = n := by
      simpa using heq.symm
    rw [dif_neg hge]

theorem encodeAll_cons (m : List Char) (ms : List (List Char)) :
    encodeAll (m :: ms) = encodeMsg m ++ encodeAll ms := by
  simp [encodeAll]

theorem encodeAll_append (l1 l2 : List (List Char)) :
    encodeAll (l1 ++ l2) = encodeAll l1 ++ encodeAll l2 := by
  simp [encodeAll]

theorem encodeMsg_length (m : List Char) :
    (encodeMsg m).length =
      clHeaderChars.length + (natDigits (byteLen m)).length + 4 + m.length := by
  simp only [encodeMsg, List.length_append]
  rw [show crlf2.length = 4 from rfl]

theorem encodeMsg_length_pos (m : List Char) : 0 < (encodeMsg m).length := by
  rw [encodeMsg_length]
  omega

theorem findHeader_encodeMsg (m t : List Char) :
    findHeader (encodeMsg m ++ t) =
      some (0, clHeaderChars.length + (natDigits (byteLen m)).length + 4, byteLen m) := by
  have hre : encodeMsg m ++ t =
      clHeaderChars ++ (natDigits (byteLen m) ++ (crlf2 ++ (m ++ t))) := by
    simp [encodeMsg, List.append_assoc]
  rw [hre]
  exact findHeader_of_headerAt (headerAt_wellformed _ _)

/-- Extraction of one complete frame: the decoder removes exactly the
frame's header and payload from the front of the buffer and hands the
payload on. -/
theorem processBuffer_frame {m : List Char} (rest : List Char) (hA : asciiMsg m) :
    processBuffer (encodeMsg m ++ rest) =
      (m :: (processBuffer rest).1, (processBuffer rest).2) := by
  have hb : byteLen m = m.length := byteLen_eq_length hA
  have hf := findHeader_encodeMsg m rest
  have hge : ¬ (encodeMsg m ++ rest).length <
      0 + (clHeaderChars.length + (natDigits (byteLen m)).length + 4) + byteLen m := by
    rw [List.length_append, encodeMsg_length]
    omega
  rw [processBuffer_step _ _ _ _ hf hge]
  have hsplit : encodeMsg m ++ rest =
      (clHeaderChars ++ natDigits (byteLen m) ++ crlf2) ++ (m ++ rest) := by
    simp [encodeMsg, List.append_assoc]
  have hhl : 0 + (clHeaderChars.length + (natDigits (byteLen m)).length + 4) =
      (clHeaderChars ++ natDigits (byteLen m) ++ crlf2).length := by
    simp only [List.length_append]
    rw [show crlf2.length = 4 from rfl]
    omega
  have hdropHdr : (encodeMsg m ++ rest).drop
      (0 + (clHeaderChars.length + (natDigits (byteLen m)).length + 4)) = m ++ rest := by
    rw [hsplit, hhl, List.drop_left]
  have htake : (m ++ rest).take (byteLen m) = m := by
    rw [hb, List.take_left]
  have hdropAll : (encodeMsg m ++ rest).drop
      (0 + (clHeaderChars.length + (natDigits (byteLen m)).length + 4) + byteLen m) =
      rest := by
    have hlen2 : 0 + (clHeaderChars.length + (natDigits (byteLen m)).length + 4) + byteLen m =
        (encodeMsg m).length := by
      rw [encodeMsg_length, hb]
      omega
    rw [hlen2, List.drop_left]
  rw [hdropHdr, htake, hdropAll]

/-- A strict prefix of one frame yields nothing and is left buffered
(either no match exists yet, or the match is found but the payload is
incomplete). -/
theorem processBuffer_frame_fragment {m p : List Char} (hA : asciiMsg m)
    (hp : p <+: encodeMsg m) (hlen : p.length < (encodeMsg m).length) :
    processBuffer p = ([], p) := by
  have hb : byteLen m = m.length := byteLen_eq_length hA
  by_cases hcase : p.length < clHeaderChars.length + (natDigits (byteLen m)).length + 4
  · -- partial header: no match at all
    apply processBuffer_no_frame
    have hhdr : p <+: clHeaderChars ++ natDigits (byteLen m) ++ crlf2 := by
      apply List.prefix_of_prefix_length_le hp
      · rw [show encodeMsg m = (clHeaderChars ++ natDigits (byteLen m) ++ crlf2) ++ m from by
          simp [encodeMsg, List.append_assoc]]
        exact List.prefix_append _ _
      · simp only [List.length_append]
        rw [show crlf2.length = 4 from rfl]
        omega
    exact findHeader_header_fragment hhdr hcase
  · -- complete header, incomplete payload: match found, loop breaks
    push_neg at hcase
    have hhdrpre : (clHeaderChars ++ natDigits (byteLen m) ++ crlf2) <+: p := by
      apply List.prefix_of_prefix_length_le _ hp
      · simp only [List.length_append]
        rw [show crlf2.length = 4 from rfl]
        omega
      · rw [show encodeMsg m = (clHeaderChars ++ natDigits (byteLen m) ++ crlf2) ++ m from by
          simp [encodeMsg, List.append_assoc]]
        exact List.prefix_append _ _
    obtain ⟨t, ht⟩ := hhdrpre
    have hf : findHeader p =
        some (0, clHeaderChars.length + (natDigits (byteLen m)).length + 4, byteLen m) := by
      rw [← ht]
      rw [show (clHeaderChars ++ natDigits (byteLen m) ++ crlf2) ++ t =
          clHeaderChars ++ (natDigits (byteLen m) ++ (crlf2 ++ t)) from by
        simp [List.append_assoc]]
      exact findHeader_of_headerAt (headerAt_wellformed _ _)
    apply processBuffer_incomplete hf
    have hlp := congrArg List.length ht
    simp only [List.length_append] at hlp
    rw [show crlf2.length = 4 from rfl] at hlp
    rw [encodeMsg_length] at hlen
    omega

/-- Greedy decoding of a prefix of a framed stream: the decoder
extracts exactly the fully-contained frames, in order, and leaves a
strict prefix of the next frame buffered. -/
theorem processBuffer_spec (ms : List (List Char)) :
    ∀ (p : List Char), (∀ m ∈ ms, asciiMsg m) → p <+: encodeAll ms →
    ∃ j r, processBuffer p = (ms.take j, r) ∧ p = encodeAll (ms.take j) ++ r ∧
      ∀ m ms2, ms.drop j = m :: ms2 → r.length < (encodeMsg m).length := by
  induction ms with
  | nil =>
    intro p _ hp
    rw [show encodeAll [] = [] from rfl, List.prefix_nil] at hp
    subst hp
    exact ⟨0, [], processBuffer_no_frame rfl, by simp [encodeAll], by simp⟩
  | cons m ms2 ih =>
    intro p ha hp
    have ham : asciiMsg m := ha m (List.mem_cons_self _ _)
    have hams2 : ∀ x ∈ ms2, asciiMsg x := fun x hx => ha x (List.mem_cons_of_mem _ hx)
    rw [encodeAll_cons] at hp
    by_cases hplen : p.length < (encodeMsg m).length
    · have hpm : p <+: encodeMsg m :=
        List.prefix_of_prefix_length_le hp (List.prefix_append _ _) (le_of_lt hplen)
      refine ⟨0, p, ?_, by simp [encodeAll], ?_⟩
      · simpa using processBuffer_frame_fragment ham hpm hplen
      · intro m1 ms3 hdrop
        simp only [List.drop_zero] at hdrop
        cases hdrop
        exact hplen
    · push_neg at hplen
      have hmp : encodeMsg m <+: p :=
        List.prefix_of_prefix_length_le (List.prefix_append _ _) hp hplen
      obtain ⟨p2, hp2⟩ := hmp
      have hp2pre : p2 <+: encodeAll ms2 := by
        rw [← hp2] at hp
        exact (List.prefix_append_right_inj _).mp hp
      obtain ⟨j, r, h1, h2, h3⟩ := ih p2 hams2 hp2pre
      refine ⟨j + 1, r, ?_, ?_, ?_⟩
      · rw [← hp2, processBuffer_frame _ ham, h1]
        simp [List.take_succ_cons]
      · rw [← hp2, h2, List.take_succ_cons, encodeAll_cons, List.append_assoc]
      · intro m1 ms3 hdrop
        rw [List.drop_succ_cons] at hdrop
        exact h3 m1 ms3 hdrop

/-- Decoding a fully framed stream recovers every message and empties
the buffer. -/
theorem processBuffer_complete {ms : List (List Char)} (ha : ∀ m ∈ ms, asciiMsg m) :
    processBuffer (encodeAll ms) = (ms, []) := by
  obtain ⟨j, r, h1, h2, h3⟩ := processBuffer_spec ms (encodeAll ms) ha (List.prefix_refl _)
  have hsplit : encodeAll ms = encodeAll (ms.take j) ++ encodeAll (ms.drop j) := by
    rw [← encodeAll_append, List.take_append_drop]
  have hr : r = encodeAll (ms.drop j) := by
    apply List.append_cancel_left
    rw [← h2, ← hsplit]
  cases hd : ms.drop j with
  | nil =>
    have htk : ms.take j = ms := by
      conv_rhs => rw [← List.take_append_drop j ms]
      rw [hd, List.append_nil]
    rw [h1, hr, hd, htk]
    rfl
  | cons m1 ms3 =>
    exfalso
    have hlt := h3 m1 ms3 hd
    rw [hr, hd, encodeAll_cons] at hlt
    simp only [List.length_append] at hlt
    omega

/-! ## Chunked feeding -/

theorem feed_aux (msgs : List (List Char)) (ha : ∀ m ∈ msgs, asciiMsg m) :
    ∀ (chunks : List (List Char)) (k : Nat) (buf : List Char),
      buf ++ chunks.flatten = encodeAll (msgs.drop k) →
      (∀ m ms2, msgs.drop k = m :: ms2 → buf.length < (encodeMsg m).length) →
      chunks.foldl feedStep (msgs.take k, buf) = (msgs, []) := by
  intro chunks
  induction chunks with
  | nil =>
    intro k buf heq hblock
    simp only [List.flatten_nil, List.append_nil] at heq
    cases hd : msgs.drop k with
    | nil =>
      rw [hd, show encodeAll [] = [] from rfl] at heq
      subst heq
      have hk : msgs.take k = msgs := by
        conv_rhs => rw [← List.take_append_drop k msgs]
        rw [hd, List.append_nil]
      simp [hk]
    | cons m ms2 =>
      exfalso
      have hlt := hblock m ms2 hd
      rw [hd] at heq
      have hge : (encodeMsg m).length ≤ buf.length := by
        rw [heq, encodeAll_cons]
        simp only [List.length_append]
        omega
      omega
  | cons c cs ih =>
    intro k buf heq hblock
    simp only [List.foldl_cons]
    rw [show feedStep (msgs.take k, buf) c =
        (msgs.take k ++ (processBuffer (buf ++ c)).1, (processBuffer (buf ++ c)).2) from rfl]
    have hpref : (buf ++ c) <+: encodeAll (msgs.drop k) := by
      refine ⟨cs.flatten, ?_⟩
      rw [← heq]
      simp [List.flatten_cons, List.append_assoc]
    have haSub : ∀ m ∈ msgs.drop k, asciiMsg m := fun m hm => ha m (List.mem_of_mem_drop hm)
    obtain ⟨j, r, h1, h2, h3⟩ := processBuffer_spec (msgs.drop k) (buf ++ c) haSub hpref
    rw [h1]
    have htake : msgs.take k ++ (msgs.drop k).take j = msgs.take (k + j) :=
      (List.take_add msgs k j).symm
    rw [htake]
    have hdropdrop : (msgs.drop k).drop j = msgs.drop (k + j) := List.drop_drop j k msgs
    apply ih (k + j) r
    · have heq2 : (buf ++ c) ++ cs.flatten = encodeAll (msgs.drop k) := by
        rw [← heq]
        simp [List.flatten_cons, List.append_assoc]
      rw [h2] at heq2
      have hsplit : encodeAll (msgs.drop k) =
          encodeAll ((msgs.drop k).take j) ++ encodeAll ((msgs.drop k).drop j) := by
        rw [← encodeAll_append, List.take_append_drop]
      rw [hsplit, List.append_assoc] at heq2
      have hc := List.append_cancel_left heq2
      rw [← hdropdrop]
      exact hc
    · intro m ms2 hdrop
      rw [← hdropdrop] at hdrop
      exact h3 m ms2 hdrop

/-- Round-trip for the whole stream: feeding any chunking of the framed
stream recovers all messages, in order, leaving an empty buffer. -/
theorem feedChunks_roundtrip {msgs chunks : List (List Char)}
    (ha : ∀ m ∈ msgs, asciiMsg m) (hj : chunks.flatten = encodeAll msgs) :
    feedChunks chunks = (msgs, []) := by
  have h0 := feed_aux msgs ha chunks 0 []
    (by simpa using hj)
    (by
      intro m ms2 hd
      simpa using encodeMsg_length_pos m)
  simpa [feedChunks] using h0

theorem natDigits_lt_ten {n : Nat} (h : n < 10) : natDigits n = [Nat.digitChar n] := by
  unfold natDigits
  rw [dif_pos h]

/-! ## Claim C6 -/

/-- C6 counterexample: for the single message "é" (one character, two
UTF-8 bytes), the byte-length header says 2 but the decoder counts
characters, so even after the entire stream has arrived the decoder
still waits for a second payload character that never comes: no message
is ever delivered, refuting the round-trip for general JSON text. -/
theorem C6_counterexample :
    (feedChunks [encodeAll [['é']]]).1 = [] ∧ ([] : List (List Char)) ≠ [['é']] := by
  constructor
  · have hcl : clHeaderChars.length = 16 := rfl
    have hb : byteLen ['é'] = 2 := rfl
    have hnd : natDigits 2 = ['2'] := natDigits_lt_ten (by norm_num)
    have h1 : encodeAll [['é']] = encodeMsg ['é'] ++ [] := by simp [encodeAll]
    have hf : findHeader (encodeAll [['é']]) = some (0, 21, 2) := by
      rw [h1, findHeader_encodeMsg, hb, hnd, hcl]
      rfl
    have hlen : (encodeAll [['é']]).length < 0 + 21 + 2 := by
      rw [h1, List.length_append, encodeMsg_length, hcl, hb, hnd]
      simp
    have hpb := processBuffer_incomplete hf hlen
    simp [feedChunks, feedStep, hpb]
  · simp

/-- C6 amended: for messages whose characters are all ASCII (so that
the byte length stated by the header coincides with the character count
the decoder uses), encoding N messages, concatenating, and feeding the
stream to the decoder at arbitrary split points yields exactly the
original N messages in order, with an empty buffer left over. -/
theorem C6_roundtrip_ascii (msgs chunks : List (List Char))
    (ha : ∀ m ∈ msgs, ∀ c ∈ m, c.toNat < 128)
    (hj : chunks.flatten = encodeAll msgs) :
    feedChunks chunks = (msgs, []) :=
  feedChunks_roundtrip ha hj

/-- C6 witness: two ASCII messages, split mid-header. -/
theorem C6_roundtrip_ascii_witness :
    (∀ m ∈ [['a', 'b'], ['[', ']']], ∀ c ∈ m, c.toNat < 128) ∧
    feedChunks [(encodeAll [['a', 'b'], ['[', ']']]).take 5,
                (encodeAll [['a', 'b'], ['[', ']']]).drop 5] =
      ([['a', 'b'], ['[', ']']], []) :=
  ⟨by decide,
   C6_roundtrip_ascii _ _ (by decide) (by simp [List.take_append_drop])⟩

/-! ## Claim C8 -/

/-- C8 counterexample: one undecodable frame *can* starve every later
well-formed message.  For the byte-length-framed stream of the two
messages "é" and "\x7b\x7d", the decoder (which counts characters, not
bytes) extracts the complete frame "éC" — swallowing the leading `C` of
the second header — whose payload fails to parse; the bad frame's bytes
are removed, the error is logged, but the remaining buffer
"ontent-Length: 2\r\n\r\n\x7b\x7d" can never match the header regex
again, so the subsequent well-formed message "\x7b\x7d" (which the
parser would have answered, third conjunct) is never processed or
answered: the response list is empty. -/
theorem C8_counterexample :
    processBuffer (encodeAll [['é'], ['\x7b', '\x7d']]) =
      ([['é', 'C']], "ontent-Length: 2\r\n\r\n".data ++ ['\x7b', '\x7d']) ∧
    framesToResponses
      (fun f => if f = ['\x7b', '\x7d'] then some (JsValue.obj []) else none)
      (fun _ => ['o', 'k'])
      (processBuffer (encodeAll [['é'], ['\x7b', '\x7d']])).1 = [] ∧
    framesToResponses
      (fun f => if f = ['\x7b', '\x7d'] then some (JsValue.obj []) else none)
      (fun _ => ['o', 'k']) [['\x7b', '\x7d']] = [['o', 'k']] := by
  have hnd : natDigits 2 = ['2'] := natDigits_lt_ten (by norm_num)
  have hEA : encodeAll [['é'], ['\x7b', '\x7d']] =
      (clHeaderChars ++ ['2'] ++ crlf2 ++ ['é']) ++
      (clHeaderChars ++ ['2'] ++ crlf2 ++ ['\x7b', '\x7d']) := by
    rw [show encodeAll [['é'], ['\x7b', '\x7d']] =
        encodeMsg ['é'] ++ encodeMsg ['\x7b', '\x7d'] from by simp [encodeAll]]
    rw [encodeMsg, encodeMsg, show byteLen ['é'] = 2 from rfl,
      show byteLen ['\x7b', '\x7d'] = 2 from rfl, hnd]
  have hpb : processBuffer (encodeAll [['é'], ['\x7b', '\x7d']]) =
      ([['é', 'C']], "ontent-Length: 2\r\n\r\n".data ++ ['\x7b', '\x7d']) := by
    rw [hEA]
    have hf : findHeader ((clHeaderChars ++ ['2'] ++ crlf2 ++ ['é']) ++
        (clHeaderChars ++ ['2'] ++ crlf2 ++ ['\x7b', '\x7d'])) = some (0, 21, 2) := by
      decide
    have hge : ¬ ((clHeaderChars ++ ['2'] ++ crlf2 ++ ['é']) ++
        (clHeaderChars ++ ['2'] ++ crlf2 ++ ['\x7b', '\x7d'])).length < 0 + 21 + 2 := by
      decide
    rw [processBuffer_step _ 0 21 2 hf hge]
    rw [show ((clHeaderChars ++ ['2'] ++ crlf2 ++ ['é']) ++
        (clHeaderChars ++ ['2'] ++ crlf2 ++ ['\x7b', '\x7d'])).drop (0 + 21 + 2) =
        "ontent-Length: 2\r\n\r\n".data ++ ['\x7b', '\x7d'] from by decide]
    rw [processBuffer_no_frame (by decide)]
    decide
  refine ⟨hpb, ?_, by decide⟩
  rw [hpb]
  decide

/-- C8 amended: for ASCII streams — where the byte length stated by the
header equals the character count the decoder uses, so that frame
extraction itself is exact — a frame whose payload fails to parse does
not disturb the stream: the decoder still removes the bad frame's bytes
from the buffer (every frame is extracted and the buffer is left
empty), and the responses produced are exactly those of the well-formed
messages before and after it — every subsequent parseable message is
still processed and answered.  (With non-ASCII payloads the
byte/character mismatch can desynchronize the framing so that later
well-formed messages are never delivered; see `C8_counterexample`.)
`parse` and `respond` abstract `JSON.parse` and the request handler;
the skipped frame corresponds to the logged error. -/
theorem C8_bad_frame_recovery (parse : List Char → Option JsValue)
    (respond : JsValue → List Char) (fs1 fs2 : List (List Char)) (bad : List Char)
    (ha : ∀ m ∈ fs1 ++ bad :: fs2, ∀ c ∈ m, c.toNat < 128) (hbad : parse bad = none) :
    processBuffer (encodeAll (fs1 ++ bad :: fs2)) = (fs1 ++ bad :: fs2, []) ∧
    framesToResponses parse respond (fs1 ++ bad :: fs2) =
      framesToResponses parse respond fs1 ++ framesToResponses parse respond fs2 := by
  refine ⟨processBuffer_complete ha, ?_⟩
  simp [framesToResponses, hbad, List.filterMap_append, List.filterMap_cons]

/-- C8 witness: a three-frame stream whose middle payload does not
parse. -/
theorem C8_bad_frame_recovery_witness :
    ((fun f => if f = ['x'] then none else some JsValue.null) ['x'] = none) ∧
    (processBuffer (encodeAll ([['a']] ++ ['x'] :: [['b']])) =
        ([['a']] ++ ['x'] :: [['b']], []) ∧
     framesToResponses (fun f => if f = ['x'] then none else some JsValue.null)
        (fun _ => ['r']) ([['a']] ++ ['x'] :: [['b']]) =
       framesToResponses (fun f => if f = ['x'] then none else some JsValue.null)
          (fun _ => ['r']) [['a']] ++
       framesToResponses (fun f => if f = ['x'] then none else some JsValue.null)
          (fun _ => ['r']) [['b']]) :=
  ⟨by simp, C8_bad_frame_recovery _ _ [['a']] [['b']] ['x'] (by decide) (by simp)⟩

end MT5
